import Mathlib

/-!
Verification of the concurrency core and probe layer of `go-hello-world`:
`internal/workerpool/workerpool.go` and `internal/checker/checker.go`.

The worker pool is embedded as a small-step transition system over an explicit
pool state; Go scheduling and `select` nondeterminism become nondeterministic
choice in the step relation.  The checker's probe functions are embedded as
pure functions parametrised by an abstract network environment (the outcomes
the operating system would deliver), so theorems quantify over every possible
network behaviour.
-/

set_option autoImplicit false

namespace Workerpool

/-- `Pool` from `workerpool.go`: holds the fixed worker count (Go `int`,
modelled as `Int`). -/
structure Pool where
  workers : Int
deriving Repr, DecidableEq

/-- `New` from `workerpool.go`: clamps a non-positive worker count to 1. -/
def New (workers : Int) : Pool :=
  if workers < 1 then { workers := 1 } else { workers := workers }

/-- The status of one worker goroutine inside `Run`.

* `idle`    — blocked receiving on the unbuffered `jobs` channel;
* `pending` — received an input, has not yet run the pre-task
  `select ctx.Done / default` check;
* `running` — passed the check, `fn(ctx, input)` is executing;
* `sending` — `fn` returned `o`, the worker is at the
  `select ctx.Done / results <- out` statement;
* `done`    — the goroutine has returned. -/
inductive WStatus (In Out : Type) where
  | idle
  | pending (x : In)
  | running (x : In)
  | sending (o : Out)
  | done
deriving Repr, DecidableEq

/-- The state of one execution of `Pool.Run` (non-empty input case).

* `feeder`    — `some l`: the feeder goroutine still has `l` to submit;
  `none`: the feeder has returned and `close(jobs)` has run;
* `workers`   — status of each worker goroutine;
* `results`   — contents of the buffered `results` channel, in send order
  (capacity `len(inputs)`, so a send never blocks); the collector loop
  returns exactly this list once all workers are done;
* `cancelled` — whether `ctx.Done()` is closed (monotone). -/
structure PoolState (In Out : Type) where
  feeder : Option (List In)
  workers : List (WStatus In Out)
  results : List Out
  cancelled : Bool
deriving Repr, DecidableEq

/-- One interleaving step of `Pool.Run`'s goroutines.  Go's `select` picks
uniformly among *ready* cases, so when `ctx.Done()` is closed and the other
operand is also ready, both outcomes are possible transitions; a `select`
with a `default` branch takes a ready case deterministically.

* `feed`: the feeder's `case jobs <- input` fires (needs a worker blocked on
  the unbuffered receive); possible even when cancelled, because both
  `select` cases are then ready.
* `stopFeed`: the feeder returns — either the input loop is exhausted or the
  `case <-ctx.Done()` fires; `defer close(jobs)` runs.
* `beginTask`: the pre-task check: `default` is taken only when `ctx.Done()`
  is not ready, so this requires `cancelled = false`; `fn` starts.
* `abortPending`: the pre-task check sees `ctx.Done()` ready and returns.
* `finishTask`: `fn(ctx, input)` returns its output.
* `sendResult`: `case results <- out` fires (always ready — the buffer never
  fills); possible even when cancelled.
* `abortSend`: `case <-ctx.Done()` fires at the send `select`; the computed
  output is discarded and the worker returns.
* `exitWorker`: `range jobs` ends because `jobs` is closed and empty.
* `cancel`: the surrounding context is cancelled (at most once). -/
inductive Step {In Out : Type} (fn : In → Out) :
    PoolState In Out → PoolState In Out → Prop where
  | feed (s : PoolState In Out) (i : Nat) (x : In) (rest : List In) :
      s.feeder = some (x :: rest) →
      s.workers.get? i = some .idle →
      Step fn s { s with feeder := some rest,
                         workers := s.workers.set i (.pending x) }
  | stopFeed (s : PoolState In Out) (l : List In) :
      s.feeder = some l →
      (l = [] ∨ s.cancelled = true) →
      Step fn s { s with feeder := none }
  | beginTask (s : PoolState In Out) (i : Nat) (x : In) :
      s.workers.get? i = some (.pending x) →
      s.cancelled = false →
      Step fn s { s with workers := s.workers.set i (.running x) }
  | abortPending (s : PoolState In Out) (i : Nat) (x : In) :
      s.workers.get? i = some (.pending x) →
      s.cancelled = true →
      Step fn s { s with workers := s.workers.set i .done }
  | finishTask (s : PoolState In Out) (i : Nat) (x : In) :
      s.workers.get? i = some (.running x) →
      Step fn s { s with workers := s.workers.set i (.sending (fn x)) }
  | sendResult (s : PoolState In Out) (i : Nat) (o : Out) :
      s.workers.get? i = some (.sending o) →
      Step fn s { s with workers := s.workers.set i .idle,
                         results := s.results ++ [o] }
  | abortSend (s : PoolState In Out) (i : Nat) (o : Out) :
      s.workers.get? i = some (.sending o) →
      s.cancelled = true →
      Step fn s { s with workers := s.workers.set i .done }
  | exitWorker (s : PoolState In Out) (i : Nat) :
      s.workers.get? i = some .idle →
      s.feeder = none →
      Step fn s { s with workers := s.workers.set i .done }
  | cancel (s : PoolState In Out) :
      s.cancelled = false →
      Step fn s { s with cancelled := true }

/-- The state of `Run` just after spawning `W` workers on a non-empty
input list. -/
def initState {In Out : Type} (inputs : List In) (W : Nat) : PoolState In Out :=
  { feeder := some inputs
    workers := List.replicate W .idle
    results := []
    cancelled := false }

/-- `Run` has returned: the feeder closed `jobs`, every worker goroutine has
returned, so `close(results)` ran and the collector loop finished, returning
`s.results`. -/
def Terminal {In Out : Type} (s : PoolState In Out) : Prop :=
  s.feeder = none ∧ ∀ w ∈ s.workers, w = WStatus.done

/-- The output a worker is still holding: an accepted input that has not yet
been sent to `results` will (if not aborted) eventually contribute `fn x`. -/
def heldOut {In Out : Type} (fn : In → Out) : WStatus In Out → List Out
  | .pending x => [fn x]
  | .running x => [fn x]
  | .sending o => [o]
  | _ => []

/-- All outputs the run can still deliver from state `s`: collected results,
outputs held by workers, and outputs of inputs not yet fed. -/
def stateMs {In Out : Type} (fn : In → Out) (s : PoolState In Out) :
    Multiset Out :=
  (s.results : Multiset Out) + (s.workers.flatMap (heldOut fn) : Multiset Out)
    + (((s.feeder.getD []).map fn : List Out) : Multiset Out)

/-- `Run`'s overall behaviour: on `[]` it returns `nil` before spawning any
goroutine; otherwise it spawns `W` workers and returns the collected results
of a maximal execution of the transition system.  The last component records
how many worker goroutines were started. -/
inductive RunRel {In Out : Type} (fn : In → Out) (W : Nat) :
    List In → List Out → Nat → Prop where
  | nil : RunRel fn W [] [] 0
  | machine (inputs : List In) (s : PoolState In Out) :
      inputs ≠ [] →
      Relation.ReflTransGen (Step fn) (initState inputs W) s →
      Terminal s →
      RunRel fn W inputs s.results W

end Workerpool

namespace Checker

/-- `Target` from `checker.go` (Go `int` fields modelled as `Int`;
`Timeout` is the `timeout_ms` JSON field). -/
structure Target where
  Name : String
  URL : String
  Host : String
  Port : Int
  type : String
  Timeout : Int
deriving Repr, DecidableEq

/-- `TLSInfo` from `checker.go`; `NotAfter` (a `time.Time`) is modelled as an
absolute timestamp. -/
structure TLSInfo where
  Subject : String
  Issuer : String
  NotAfter : Int
  DaysLeft : Int
deriving Repr, DecidableEq

/-- `Result` from `checker.go`; `Latency` is a `time.Duration` in
nanoseconds. -/
structure Result where
  Name : String
  type : String
  Target : String
  Status : String
  Latency : Int
  Detail : String
  TLS : Option TLSInfo
deriving Repr, DecidableEq

/-- Reduction of an unbounded integer to Go's wrapping `int64`. -/
def toInt64 (n : Int) : Int := (n + 2 ^ 63) % 2 ^ 64 - 2 ^ 63

/-- Go `int64` multiplication (wraps on overflow, as the Go spec defines). -/
def int64Mul (a b : Int) : Int := toInt64 (a * b)

/-- `time.Millisecond` in nanoseconds. -/
def millisecond : Int := 1000000

/-- `time.Second` in nanoseconds. -/
def second : Int := 1000000000

/-- Lines 47–50 of `Check`:
`timeout := time.Duration(target.Timeout) * time.Millisecond` followed by
`if timeout <= 0 { timeout = 5 * time.Second }`.  The conversion and
multiplication are Go `int64` arithmetic, hence wrap on overflow. -/
def effectiveTimeout (timeoutMs : Int) : Int :=
  let t := int64Mul timeoutMs millisecond
  if t ≤ 0 then 5 * second else t

/-- `unicode.IsSpace`: the Unicode White_Space property, used by
`strings.TrimSpace`. -/
def goIsSpace (c : Char) : Bool :=
  c.toNat = 9 || c.toNat = 10 || c.toNat = 11 || c.toNat = 12 ||
  c.toNat = 13 || c.toNat = 32 || c.toNat = 0x85 || c.toNat = 0xA0 ||
  c.toNat = 0x1680 || (0x2000 ≤ c.toNat && c.toNat ≤ 0x200A) ||
  c.toNat = 0x2028 || c.toNat = 0x2029 || c.toNat = 0x202F ||
  c.toNat = 0x205F || c.toNat = 0x3000

/-- `strings.TrimSpace`: drop leading and trailing white space. -/
def goTrimSpace (s : String) : String :=
  String.mk (((s.data.dropWhile goIsSpace).reverse.dropWhile goIsSpace).reverse)

/-- `strings.ToLower`, restricted to the ASCII simple case map (identity on
all other runes).  Go's full Unicode mapping agrees with this on every string
relevant to kind dispatch: no non-ASCII rune lower-maps to any letter of
`"http"`, `"tcp"` or `"dns"`, so both maps classify dispatch identically. -/
def goToLower (s : String) : String :=
  String.mk (s.data.map fun c =>
    if 65 ≤ c.toNat ∧ c.toNat ≤ 90 then Char.ofNat (c.toNat + 32) else c)

/-- The kind normalization in `Check`'s `switch`:
`strings.ToLower(strings.TrimSpace(target.type))`. -/
def normalizeType (s : String) : String := goToLower (goTrimSpace s)

/-- Go `fmt` `%q` of a string, restricted to escaping backslash and quote
(sufficient for the kind strings at issue; `%q` additionally escapes
non-printable runes). -/
def goQuote (s : String) : String :=
  "\"" ++ String.mk (s.data.flatMap fun c =>
    if c = '\\' ∨ c = '"' then ['\\', c] else [c]) ++ "\""

/-- The network's possible behaviour towards one `checkHTTP` call:
whether `http.NewRequestWithContext` fails (and its error text), what
`client.Do` delivers (transport error text, or a response status code),
the elapsed wall-clock time observed at each measurement point, and the
certificate summary `checkHTTP` would extract from `resp.TLS` (already
`none` when the transport is not TLS or no peer certificate is present). -/
structure HTTPEnv where
  buildErr : Option String
  doResult : Except String Int
  buildElapsed : Int
  doElapsed : Int
  tls : Option TLSInfo
deriving Repr

/-- The redirect behaviour of an `http.Client`. -/
inductive RedirectPolicy where
  | follow
  | useLastResponse
deriving Repr, DecidableEq

/-- The observable configuration of an `http.Client`. -/
structure HTTPClientConfig where
  timeout : Int
  redirect : RedirectPolicy
deriving Repr, DecidableEq

/-- The `http.Client` literal of `checkHTTP`: a fixed 10-second timeout and a
`CheckRedirect` returning `http.ErrUseLastResponse`, so a 3xx response is
returned as-is rather than followed. -/
def checkHTTPClient : HTTPClientConfig :=
  { timeout := 10 * second, redirect := .useLastResponse }

/-- `checkHTTP` from `checker.go`, with the network abstracted into `env`. -/
def checkHTTP (env : HTTPEnv) (target : Target) : Result :=
  match env.buildErr with
  | some e =>
      { Name := target.Name, type := "http", Target := target.URL,
        Status := "error", Latency := env.buildElapsed,
        Detail := "build request: " ++ e, TLS := none }
  | none =>
      match env.doResult with
      | .error e =>
          { Name := target.Name, type := "http", Target := target.URL,
            Status := "down", Latency := env.doElapsed, Detail := e,
            TLS := none }
      | .ok code =>
          { Name := target.Name, type := "http", Target := target.URL,
            Status := if 200 ≤ code ∧ code < 400 then "up" else "down",
            Latency := env.doElapsed, Detail := "HTTP " ++ toString code,
            TLS := env.tls }

/-- The network's possible behaviour towards one `checkTCP` call: the dial
outcome, the elapsed time observed right after the dial, the certificate
summary the secondary TLS handshake would harvest (`none` when that
handshake fails or presents no certificate), and the wall-clock time that
secondary handshake consumes. -/
structure TCPEnv where
  dialErr : Option String
  dialElapsed : Int
  tlsProbe : Option TLSInfo
  tlsElapsed : Int
deriving Repr, DecidableEq

/-- `checkTCP` from `checker.go`: latency is taken directly after the dial;
the secondary handshake on port 443/8443 only ever fills the `TLS` field. -/
def checkTCP (env : TCPEnv) (t : Target) : Result :=
  let addr := t.Host ++ ":" ++ toString t.Port
  match env.dialErr with
  | some e =>
      { Name := t.Name, type := "tcp", Target := addr, Status := "down",
        Latency := env.dialElapsed, Detail := e, TLS := none }
  | none =>
      let r : Result :=
        { Name := t.Name, type := "tcp", Target := addr, Status := "up",
          Latency := env.dialElapsed, Detail := "connection successful",
          TLS := none }
      if t.Port = 443 ∨ t.Port = 8443 then { r with TLS := env.tlsProbe }
      else r

/-- The resolver's possible behaviour towards one `checkDNS` call. -/
structure DNSEnv where
  lookup : Except String (List String)
  elapsed : Int
deriving Repr

/-- Go `%v` of a string slice. -/
def goStringSlice (l : List String) : String :=
  "[" ++ String.intercalate " " l ++ "]"

/-- `checkDNS` from `checker.go`. -/
def checkDNS (env : DNSEnv) (t : Target) : Result :=
  match env.lookup with
  | .error e =>
      { Name := t.Name, type := "dns", Target := t.Host, Status := "down",
        Latency := env.elapsed, Detail := e, TLS := none }
  | .ok addrs =>
      { Name := t.Name, type := "dns", Target := t.Host, Status := "up",
        Latency := env.elapsed, Detail := "resolved to " ++ goStringSlice addrs,
        TLS := none }

/-- The whole network environment one `Check` call might consult. -/
structure Env where
  http : HTTPEnv
  tcp : TCPEnv
  dns : DNSEnv
deriving Repr

/-- `Check` from `checker.go`: kind dispatch on the normalized `Type`; an
unrecognized kind yields the ERROR result without consulting the network
(`Latency` keeps its zero value). -/
def Check (env : Env) (target : Target) : Result :=
  let k := normalizeType target.type
  if k = "http" then checkHTTP env.http target
  else if k = "tcp" then checkTCP env.tcp target
  else if k = "dns" then checkDNS env.dns target
  else
    { Name := target.Name, type := target.type, Target := target.URL,
      Status := "error", Latency := 0,
      Detail := "unknown check type: " ++ goQuote target.type, TLS := none }

/-- The bound on one HTTP request: `net/http` applies `Client.Timeout`
independently of the request's context, so the request is limited by the
tighter of the per-target timeout context (line 52 of `checker.go`) and the
fixed client timeout (line 89). -/
def httpRequestBound (timeoutMs : Int) : Int :=
  min (effectiveTimeout timeoutMs) checkHTTPClient.timeout

/-- A sample target, used for witnesses. -/
def sampleTarget : Target :=
  { Name := "t", URL := "http://example", Host := "example", Port := 443,
    type := "http", Timeout := 0 }

/-- A sample network environment, used for witnesses. -/
def sampleEnv : Env :=
  { http := { buildErr := none, doResult := Except.ok 503, buildElapsed := 0,
              doElapsed := 5, tls := none }
    tcp := { dialErr := none, dialElapsed := 3, tlsProbe := none,
             tlsElapsed := 9 }
    dns := { lookup := Except.ok ["127.0.0.1"], elapsed := 2 } }

/-- A second, observably different sample environment, used to witness that
unknown-kind checks consult no network at all. -/
def sampleEnvDown : Env :=
  { http := { buildErr := some "bad url", doResult := Except.error "dial",
              buildElapsed := 1, doElapsed := 1, tls := none }
    tcp := { dialErr := some "connection refused", dialElapsed := 7,
             tlsProbe := none, tlsElapsed := 0 }
    dns := { lookup := Except.error "no such host", elapsed := 4 } }

end Checker

namespace Workerpool

/-- Replacing entry `i` (which holds `a`) by `b` exchanges `f a` for `f b`
in the multiset of all `flatMap` outputs. -/
lemma flatMap_set_ms {α β : Type _} (f : α → List β) :
    ∀ (l : List α) (i : Nat) (a b : α), l.get? i = some a →
      ((l.set i b).flatMap f : Multiset β) + (f a : Multiset β)
        = (l.flatMap f : Multiset β) + (f b : Multiset β) := by
  intro l
  induction l with
  | nil => intro i a b h; simp at h
  | cons x xs ih =>
      intro i a b h
      cases i with
      | zero =>
          simp only [List.get?] at h
          injection h with h
          subst h
          simp only [List.set, List.flatMap_cons, ← Multiset.coe_add]
          abel
      | succ i =>
          simp only [List.get?] at h
          have key := ih i a b h
          simp only [List.set, List.flatMap_cons, ← Multiset.coe_add]
          rw [add_assoc, add_assoc, key]

/-- Cancellation is monotone along steps. -/
lemma step_cancel_mono {In Out : Type} {fn : In → Out}
    {s s' : PoolState In Out} (h : Step fn s s') :
    s.cancelled = true → s'.cancelled = true := by
  cases h <;> simp_all

/-- Along a step the multiset of deliverable outputs never grows, and it is
preserved exactly while the context is uncancelled (outputs are dropped only
by the feeder's and the workers' `ctx.Done()` branches). -/
lemma step_ms {In Out : Type} (fn : In → Out) {s s' : PoolState In Out}
    (h : Step fn s s') :
    stateMs fn s' ≤ stateMs fn s ∧
      (s'.cancelled = false → stateMs fn s' = stateMs fn s) := by
  cases h with
  | feed i x rest hf hw =>
      have key := flatMap_set_ms (heldOut fn) s.workers i .idle (.pending x) hw
      simp only [heldOut, Multiset.coe_nil, add_zero, Multiset.coe_singleton] at key
      have heq : stateMs fn { s with feeder := some rest, workers := s.workers.set i (.pending x) } = stateMs fn s := by
        simp only [stateMs, hf, Option.getD_some, List.map_cons, ← Multiset.cons_coe, ← Multiset.singleton_add, key]
        abel
      exact ⟨le_of_eq heq, fun _ => heq⟩
  | stopFeed l hf hc =>
      have key : stateMs fn { s with feeder := none } + ((l.map fn : List Out) : Multiset Out) = stateMs fn s := by
        simp only [stateMs, hf, Option.getD_some, Option.getD_none, List.map_nil, Multiset.coe_nil, add_zero]
      constructor
      · rw [← key]; exact self_le_add_right _ _
      · intro hfalse
        rcases hc with hnil | hcan
        · subst hnil; simpa using key
        · rw [hcan] at hfalse; cases hfalse
  | beginTask i x hw hc =>
      have key := flatMap_set_ms (heldOut fn) s.workers i (.pending x) (.running x) hw
      simp only [heldOut] at key
      have hcancel := add_right_cancel key
      have heq : stateMs fn { s with workers := s.workers.set i (.running x) } = stateMs fn s := by
        simp only [stateMs, hcancel]
      exact ⟨le_of_eq heq, fun _ => heq⟩
  | abortPending i x hw hc =>
      have key := flatMap_set_ms (heldOut fn) s.workers i (.pending x) .done hw
      simp only [heldOut, Multiset.coe_nil, add_zero, Multiset.coe_singleton] at key
      have hle : stateMs fn { s with workers := s.workers.set i .done } + ((fn x) ::ₘ 0 : Multiset Out) = stateMs fn s := by
        simp only [stateMs, ← Multiset.singleton_add]
        rw [← key]
        abel
      constructor
      · rw [← hle]; exact self_le_add_right _ _
      · intro hfalse; rw [hc] at hfalse; cases hfalse
  | finishTask i x hw =>
      have key := flatMap_set_ms (heldOut fn) s.workers i (.running x) (.sending (fn x)) hw
      simp only [heldOut] at key
      have hcancel := add_right_cancel key
      have heq : stateMs fn { s with workers := s.workers.set i (.sending (fn x)) } = stateMs fn s := by
        simp only [stateMs, hcancel]
      exact ⟨le_of_eq heq, fun _ => heq⟩
  | sendResult i o hw =>
      have key := flatMap_set_ms (heldOut fn) s.workers i (.sending o) .idle hw
      simp only [heldOut, Multiset.coe_nil, add_zero, Multiset.coe_singleton] at key
      have heq : stateMs fn { s with workers := s.workers.set i .idle, results := s.results ++ [o] } = stateMs fn s := by
        simp only [stateMs, ← Multiset.coe_add, Multiset.coe_singleton]
        rw [← key]
        abel
      exact ⟨le_of_eq heq, fun _ => heq⟩
  | abortSend i o hw hc =>
      have key := flatMap_set_ms (heldOut fn) s.workers i (.sending o) .done hw
      simp only [heldOut, Multiset.coe_nil, add_zero, Multiset.coe_singleton] at key
      have hle : stateMs fn { s with workers := s.workers.set i .done } + (o ::ₘ 0 : Multiset Out) = stateMs fn s := by
        simp only [stateMs, ← Multiset.singleton_add]
        rw [← key]
        abel
      constructor
      · rw [← hle]; exact self_le_add_right _ _
      · intro hfalse; rw [hc] at hfalse; cases hfalse
  | exitWorker i hw hf =>
      have key := flatMap_set_ms (heldOut fn) s.workers i .idle .done hw
      simp only [heldOut, Multiset.coe_nil, add_zero] at key
      have heq : stateMs fn { s with workers := s.workers.set i .done } = stateMs fn s := by
        simp only [stateMs, key]
      exact ⟨le_of_eq heq, fun _ => heq⟩
  | cancel hc =>
      have heq : stateMs fn { s with cancelled := true } = stateMs fn s := by
        simp only [stateMs]
      exact ⟨le_of_eq heq, fun _ => heq⟩

/-- The step invariant transported along any execution. -/
lemma reach_ms {In Out : Type} (fn : In → Out) {a b : PoolState In Out}
    (h : Relation.ReflTransGen (Step fn) a b) :
    stateMs fn b ≤ stateMs fn a ∧
      (b.cancelled = false → stateMs fn b = stateMs fn a ∧ a.cancelled = false) := by
  induction h with
  | refl => exact ⟨le_rfl, fun hc => ⟨rfl, hc⟩⟩
  | tail hab hbc ih =>
      obtain ⟨hle, heq⟩ := ih
      obtain ⟨hle2, heq2⟩ := step_ms fn hbc
      refine ⟨le_trans hle2 hle, fun hc => ?_⟩
      rename_i b' c'
      have hb : b'.cancelled = false := by
        cases hb2 : b'.cancelled with
        | false => rfl
        | true => rw [step_cancel_mono hbc hb2] at hc; cases hc
      obtain ⟨hmid, ha⟩ := heq hb
      exact ⟨(heq2 hc).trans hmid, ha⟩

/-- Idle workers hold no outputs. -/
lemma flatMap_replicate_idle {In Out : Type} (fn : In → Out) (W : Nat) :
    (List.replicate W (WStatus.idle : WStatus In Out)).flatMap (heldOut fn) = [] := by
  induction W with
  | zero => rfl
  | succ k ih => simp [List.replicate_succ, heldOut, ih]

/-- In the initial state the deliverable outputs are exactly `inputs.map fn`. -/
lemma stateMs_init {In Out : Type} (fn : In → Out) (inputs : List In) (W : Nat) :
    stateMs fn (initState inputs W : PoolState In Out)
      = ((inputs.map fn : List Out) : Multiset Out) := by
  simp [stateMs, initState, flatMap_replicate_idle]

/-- In a terminal state the deliverable outputs are exactly the collected
results. -/
lemma stateMs_terminal {In Out : Type} (fn : In → Out) {s : PoolState In Out}
    (h : Terminal s) :
    stateMs fn s = ((s.results : List Out) : Multiset Out) := by
  obtain ⟨hf, hws⟩ := h
  have hflat : s.workers.flatMap (heldOut fn) = [] := by
    rw [List.flatMap_eq_nil_iff]
    intro w hw
    rw [hws w hw]
    rfl
  simp [stateMs, hf, hflat]

lemma get?_append_cons {α : Type _} :
    ∀ (pre : List α) (a : α) (l : List α), (pre ++ a :: l).get? pre.length = some a := by
  intro pre
  induction pre with
  | nil => intro a l; rfl
  | cons x xs ih => intro a l; exact ih a l

lemma set_append_cons {α : Type _} :
    ∀ (pre : List α) (a b : α) (l : List α),
      (pre ++ a :: l).set pre.length b = pre ++ b :: l := by
  intro pre
  induction pre with
  | nil => intro a b l; rfl
  | cons x xs ih => intro a b l; simp [ih a b l]

/-- Worker 0 alone can process the whole remaining input list when nothing
is cancelled: feed, check, run, send, repeat. -/
lemma reach_feed_all {In Out : Type} (fn : In → Out) :
    ∀ (l : List In) (ws : List (WStatus In Out)) (r : List Out),
      Relation.ReflTransGen (Step fn)
        ⟨some l, .idle :: ws, r, false⟩
        ⟨some [], .idle :: ws, r ++ l.map fn, false⟩ := by
  intro l
  induction l with
  | nil => intro ws r; simpa using Relation.ReflTransGen.refl
  | cons x xs ih =>
      intro ws r
      have h1 : Step fn ⟨some (x :: xs), .idle :: ws, r, false⟩
          ⟨some xs, .pending x :: ws, r, false⟩ :=
        Step.feed _ 0 x xs rfl rfl
      have h2 : Step fn ⟨some xs, .pending x :: ws, r, false⟩
          ⟨some xs, .running x :: ws, r, false⟩ :=
        Step.beginTask _ 0 x rfl rfl
      have h3 : Step fn ⟨some xs, .running x :: ws, r, false⟩
          ⟨some xs, .sending (fn x) :: ws, r, false⟩ :=
        Step.finishTask _ 0 x rfl
      have h4 : Step fn ⟨some xs, .sending (fn x) :: ws, r, false⟩
          ⟨some xs, .idle :: ws, r ++ [fn x], false⟩ :=
        Step.sendResult _ 0 (fn x) rfl
      have tail := ih ws (r ++ [fn x])
      rw [List.append_assoc] at tail
      exact .head h1 (.head h2 (.head h3 (.head h4 tail)))

/-- Once the feeder has closed `jobs`, every idle worker can exit. -/
lemma reach_exit_all {In Out : Type} (fn : In → Out) (r : List Out) (c : Bool) :
    ∀ (post pre : List (WStatus In Out)),
      (∀ w ∈ post, w = WStatus.idle) → (∀ w ∈ pre, w = WStatus.done) →
      Relation.ReflTransGen (Step fn)
        ⟨none, pre ++ post, r, c⟩
        ⟨none, pre ++ post.map (fun _ => .done), r, c⟩ := by
  intro post
  induction post with
  | nil => intro pre _ _; exact .refl
  | cons w rest ih =>
      intro pre hpost hpre
      have hw : w = WStatus.idle := hpost w (by simp)
      subst hw
      have h1 : Step fn ⟨none, pre ++ .idle :: rest, r, c⟩
          ⟨none, pre ++ .done :: rest, r, c⟩ := by
        have := @Step.exitWorker In Out fn ⟨none, pre ++ .idle :: rest, r, c⟩
          pre.length (get?_append_cons pre _ rest) rfl
        rwa [show (⟨none, pre ++ .idle :: rest, r, c⟩ : PoolState In Out).workers.set pre.length .done = pre ++ .done :: rest from set_append_cons pre _ _ rest] at this
      have tail := ih (pre ++ [WStatus.done])
        (fun w hw => hpost w (by simp [hw]))
        (fun w hw => by
          rcases List.mem_append.mp hw with h | h
          · exact hpre w h
          · simpa using h)
      simp only [List.append_assoc, List.singleton_append, List.map_cons] at tail ⊢
      exact .head h1 tail

/-- A complete, uncancelled execution exists whenever there is at least one
worker: worker 0 processes every input in order. -/
lemma exists_terminal_run {In Out : Type} (fn : In → Out) (inputs : List In)
    (W : Nat) (hW : 1 ≤ W) :
    ∃ s : PoolState In Out,
      Relation.ReflTransGen (Step fn) (initState inputs W) s ∧ Terminal s ∧
        s.cancelled = false ∧ s.results = inputs.map fn := by
  obtain ⟨k, rfl⟩ : ∃ k, W = k + 1 := ⟨W - 1, by omega⟩
  have t1 : Relation.ReflTransGen (Step fn) (initState inputs (k + 1))
      ⟨some [], .idle :: List.replicate k .idle, inputs.map fn, false⟩ := by
    have := reach_feed_all fn inputs (List.replicate k (WStatus.idle : WStatus In Out)) []
    simpa [initState, List.replicate_succ] using this
  have t2 : Step fn ⟨some [], .idle :: List.replicate k .idle, inputs.map fn, false⟩
      ⟨none, .idle :: List.replicate k .idle, inputs.map fn, false⟩ :=
    Step.stopFeed _ [] rfl (Or.inl rfl)
  have t3 : Relation.ReflTransGen (Step fn)
      ⟨none, .idle :: List.replicate k .idle, inputs.map fn, false⟩
      ⟨none, (WStatus.idle :: List.replicate k (WStatus.idle : WStatus In Out)).map (fun _ => .done), inputs.map fn, false⟩ := by
    have := reach_exit_all fn (inputs.map fn) false
      (WStatus.idle :: List.replicate k (WStatus.idle : WStatus In Out)) []
      (fun w hw => by
        rcases List.mem_cons.mp hw with h | h
        · exact h
        · exact List.eq_of_mem_replicate h)
      (fun w hw => by cases hw)
    simpa using this
  refine ⟨_, (t1.trans (Relation.ReflTransGen.head t2 t3)), ⟨rfl, ?_⟩, rfl, rfl⟩
  intro w hw
  rcases List.mem_map.mp hw with ⟨_, _, h⟩
  exact h.symm

/-- An entry read after a `set` is either the written value or was already
there. -/
lemma get?_of_get?_set {α : Type _} :
    ∀ (l : List α) (i j : Nat) (b c : α), (l.set i b).get? j = some c →
      c = b ∨ l.get? j = some c := by
  intro l
  induction l with
  | nil => intro i j b c h; simp at h
  | cons x xs ih =>
      intro i j b c h
      cases i with
      | zero =>
          cases j with
          | zero => left; simp at h; exact h.symm
          | succ j => right; simpa using h
      | succ i =>
          cases j with
          | zero => right; simpa using h
          | succ j => exact ih i j b c (by simpa using h)

/-- C1: for every non-empty input list of length `N` and every task function,
absent cancellation `Pool.Run` returns exactly `N` outputs, one per input
(a permutation of `inputs.map fn`), in arbitrary order.  Soundness: every
terminated uncancelled execution collects exactly that multiset; liveness:
such an execution exists whenever the pool has at least one worker. -/
theorem run_uncancelled_returns_all {In Out : Type} (fn : In → Out)
    (inputs : List In) (W : Nat) (hW : 1 ≤ W) (_hne : inputs ≠ []) :
    (∀ s : PoolState In Out,
        Relation.ReflTransGen (Step fn) (initState inputs W) s → Terminal s →
          s.cancelled = false →
          s.results.Perm (inputs.map fn) ∧ s.results.length = inputs.length)
    ∧ ∃ s : PoolState In Out,
        Relation.ReflTransGen (Step fn) (initState inputs W) s ∧ Terminal s ∧
          s.cancelled = false ∧ s.results = inputs.map fn := by
  constructor
  · intro s hreach hterm hc
    obtain ⟨-, himp⟩ := reach_ms fn hreach
    obtain ⟨heq, -⟩ := himp hc
    rw [stateMs_terminal fn hterm, stateMs_init] at heq
    have hperm : s.results.Perm (inputs.map fn) := Multiset.coe_eq_coe.mp heq
    exact ⟨hperm, by simpa using hperm.length_eq⟩
  · exact exists_terminal_run fn inputs W hW

/-- Witness for C1 at `fn = Nat.succ`, `inputs = [3, 5]`, one worker. -/
theorem run_uncancelled_returns_all_witness :
    (∀ s : PoolState Nat Nat,
        Relation.ReflTransGen (Step Nat.succ) (initState [3, 5] 1) s → Terminal s →
          s.cancelled = false →
          s.results.Perm ([3, 5].map Nat.succ) ∧ s.results.length = ([3, 5] : List Nat).length)
    ∧ ∃ s : PoolState Nat Nat,
        Relation.ReflTransGen (Step Nat.succ) (initState [3, 5] 1) s ∧ Terminal s ∧
          s.cancelled = false ∧ s.results = [3, 5].map Nat.succ :=
  run_uncancelled_returns_all Nat.succ [3, 5] 1 (by decide) (by decide)

/-- C2 (amended): once the context is cancelled, no worker begins a new task
invocation (the pre-task check is deterministic), and the collected output
never exceeds `len(inputs)` — but completed in-flight outputs may still be
delivered, so the collection need not be strictly smaller. -/
theorem run_cancelled_bounds {In Out : Type} (fn : In → Out)
    (inputs : List In) (W : Nat) :
    (∀ s s' : PoolState In Out, Step fn s s' → s.cancelled = true →
        ∀ (i : Nat) (x : In), s'.workers.get? i = some (.running x) →
          s.workers.get? i = some (.running x))
    ∧ (∀ s : PoolState In Out,
        Relation.ReflTransGen (Step fn) (initState inputs W) s →
          s.results.length ≤ inputs.length) := by
  constructor
  · intro s s' hstep hcan i x hget
    cases hstep with
    | feed j y rest hf hw =>
        rcases get?_of_get?_set _ _ _ _ _ hget with h | h
        · cases h
        · exact h
    | stopFeed l hf hc => exact hget
    | beginTask j y hw hc => rw [hcan] at hc; cases hc
    | abortPending j y hw hc =>
        rcases get?_of_get?_set _ _ _ _ _ hget with h | h
        · cases h
        · exact h
    | finishTask j y hw =>
        rcases get?_of_get?_set _ _ _ _ _ hget with h | h
        · cases h
        · exact h
    | sendResult j o hw =>
        rcases get?_of_get?_set _ _ _ _ _ hget with h | h
        · cases h
        · exact h
    | abortSend j o hw hc =>
        rcases get?_of_get?_set _ _ _ _ _ hget with h | h
        · cases h
        · exact h
    | exitWorker j hw hf =>
        rcases get?_of_get?_set _ _ _ _ _ hget with h | h
        · cases h
        · exact h
    | cancel hc => exact hget
  · intro s hreach
    have hle := (reach_ms fn hreach).1
    rw [stateMs_init] at hle
    have hcard := Multiset.card_le_card hle
    simp only [Multiset.coe_card, List.length_map] at hcard
    have htotal : Multiset.card (stateMs fn s)
        = s.results.length + ((s.workers.flatMap (heldOut fn)).length
            + ((s.feeder.getD []).map fn).length) := by
      simp [stateMs, add_assoc]
    omega

/-- Witness for C2's amended theorem: on the trivial reflexive execution the
initial state has no more than `len(inputs)` outputs. -/
theorem run_cancelled_bounds_witness :
    (initState [7] 2 : PoolState Nat Nat).results.length ≤ ([7] : List Nat).length :=
  (run_cancelled_bounds Nat.succ [7] 2).2 _ Relation.ReflTransGen.refl

/-- C2 counterexample: an execution of `Run` on `[0]` with one worker where the
context is cancelled while the single output is still in flight (nothing has
been collected, so cancellation occurs strictly before completion), yet the
worker's `select` then delivers the in-flight output and the final collection
has full length `len(inputs)` — refuting "strictly smaller than `len(inputs)`
whenever cancellation occurs before completion", and with it the guarantee
that no further input is handed over nor dropped deterministically. -/
theorem run_cancel_before_completion_full_output :
    Relation.ReflTransGen (Step Nat.succ) (initState [0] 1)
        (⟨some [], [.sending 1], [], true⟩ : PoolState Nat Nat)
    ∧ (⟨some [], [.sending 1], [], true⟩ : PoolState Nat Nat).cancelled = true
    ∧ (⟨some [], [.sending 1], [], true⟩ : PoolState Nat Nat).results.length
        < ([0] : List Nat).length
    ∧ Relation.ReflTransGen (Step Nat.succ)
        (⟨some [], [.sending 1], [], true⟩ : PoolState Nat Nat)
        (⟨none, [.done], [1], true⟩ : PoolState Nat Nat)
    ∧ Terminal (⟨none, [.done], [1], true⟩ : PoolState Nat Nat)
    ∧ (⟨none, [.done], [1], true⟩ : PoolState Nat Nat).results.length
        = ([0] : List Nat).length := by
  refine ⟨?_, rfl, by decide, ?_, ⟨rfl, by decide⟩, rfl⟩
  · exact .head (Step.feed _ 0 0 [] rfl rfl)
      (.head (Step.beginTask _ 0 0 rfl rfl)
        (.head (Step.finishTask _ 0 0 rfl)
          (.single (Step.cancel _ rfl))))
  · exact .head (Step.sendResult _ 0 1 rfl)
      (.head (Step.stopFeed _ [] rfl (Or.inr rfl))
        (.single (Step.exitWorker _ 0 rfl rfl)))

/-- C7: `Run` on an empty input list returns the empty collection and starts
no workers (the guard at the top of `Run` returns `nil` before any goroutine
is spawned). -/
theorem run_empty {In Out : Type} (fn : In → Out) (W : Nat) (out : List Out)
    (k : Nat) (h : RunRel fn W [] out k) : out = [] ∧ k = 0 := by
  cases h with
  | nil => exact ⟨rfl, rfl⟩
  | machine _ s hne _ _ => exact absurd rfl hne

/-- Witness for C7: the empty-input behaviour of `Run` with 4 workers. -/
theorem run_empty_witness : ([] : List Nat) = [] ∧ 0 = 0 :=
  run_empty Nat.succ 4 ([] : List Nat) 0 RunRel.nil

/-- C8: `New w` has worker count `w` for `w ≥ 1` and exactly 1 for `w ≤ 0`;
the pool never has zero workers. -/
theorem New_clamps (w : Int) :
    (1 ≤ w → (New w).workers = w)
    ∧ (w ≤ 0 → (New w).workers = 1)
    ∧ (New w).workers ≠ 0 := by
  refine ⟨fun h => ?_, fun h => ?_, ?_⟩
  · simp only [New, if_neg (by omega : ¬ w < 1)]
  · simp only [New, if_pos (by omega : w < 1)]
  · by_cases h : w < 1
    · simp only [New, if_pos h]
      decide
    · simp only [New, if_neg h]
      omega

/-- Witness for C8 at `w = -3` and `w = 5`. -/
theorem New_clamps_witness : (New (-3)).workers = 1 ∧ (New 5).workers = 5 :=
  ⟨(New_clamps (-3)).2.1 (by decide), (New_clamps 5).1 (by decide)⟩

end Workerpool

namespace Checker

/-- C3: when the request builds, redirects are not followed (the client's
policy is `ErrUseLastResponse`); a received status in `[200, 400)` yields
`"up"`, any other received status `"down"`, with the numeric status in
`Detail`; a transport failure yields `"down"` with the error text. -/
theorem checkHTTP_classification (t : Target) (env : HTTPEnv)
    (hbuild : env.buildErr = none) :
    checkHTTPClient.redirect = RedirectPolicy.useLastResponse
    ∧ (∀ code : Int, env.doResult = .ok code →
        (checkHTTP env t).Status = (if 200 ≤ code ∧ code < 400 then "up" else "down")
        ∧ (checkHTTP env t).Detail = "HTTP " ++ toString code)
    ∧ (∀ e : String, env.doResult = .error e →
        (checkHTTP env t).Status = "down" ∧ (checkHTTP env t).Detail = e) := by
  refine ⟨rfl, fun code hcode => ?_, fun e he => ?_⟩
  · rw [checkHTTP, hbuild, hcode]
    exact ⟨rfl, rfl⟩
  · rw [checkHTTP, hbuild, he]
    exact ⟨rfl, rfl⟩

/-- Witness for C3: a delivered 503 classifies as `"down"` with the numeric
status reported. -/
theorem checkHTTP_classification_witness :
    (checkHTTP sampleEnv.http sampleTarget).Status = "down"
    ∧ (checkHTTP sampleEnv.http sampleTarget).Detail = "HTTP 503" := by
  have h := (checkHTTP_classification sampleTarget sampleEnv.http rfl).2.1 503 rfl
  simpa using h

/-- C4: a target whose normalized kind is none of the three recognized values
produces the ERROR result naming the kind, with zero latency, and without
consulting the network (the result is the same under every environment). -/
theorem Check_unknown_kind (env env' : Env) (t : Target)
    (h1 : normalizeType t.type ≠ "http")
    (h2 : normalizeType t.type ≠ "tcp")
    (h3 : normalizeType t.type ≠ "dns") :
    Check env t = { Name := t.Name, type := t.type, Target := t.URL,
                    Status := "error", Latency := 0,
                    Detail := "unknown check type: " ++ goQuote t.type,
                    TLS := none }
    ∧ Check env t = Check env' t := by
  rw [Check, Check]
  simp [h1, h2, h3]

/-- Witness for C4 at kind `"ftp"`: the ERROR result, zero latency, and
environment independence, evaluated concretely. -/
theorem Check_unknown_kind_witness :
    Check sampleEnv { sampleTarget with type := "ftp" }
      = { Name := "t", type := "ftp", Target := "http://example",
          Status := "error", Latency := 0,
          Detail := "unknown check type: \"ftp\"", TLS := none }
    ∧ Check sampleEnv { sampleTarget with type := "ftp" }
      = Check sampleEnvDown { sampleTarget with type := "ftp" } := by
  have h := Check_unknown_kind sampleEnv sampleEnvDown
    { sampleTarget with type := "ftp" }
    (by decide) (by decide) (by decide)
  exact ⟨h.1.trans (by decide), h.2⟩

/-- C5: the secondary TLS handshake of the TCP branch affects only the `TLS`
field: for any two outcomes (and durations) of that handshake the results
agree on everything else, and the reported latency is exactly the elapsed
time observed at the dial, never including the secondary handshake. -/
theorem checkTCP_tls_frame (t : Target) (dialErr : Option String)
    (dElapsed : Int) (p₁ p₂ : Option TLSInfo) (e₁ e₂ : Int) :
    checkTCP ⟨dialErr, dElapsed, p₁, e₁⟩ t
      = { checkTCP ⟨dialErr, dElapsed, p₂, e₂⟩ t with
          TLS := (checkTCP ⟨dialErr, dElapsed, p₁, e₁⟩ t).TLS }
    ∧ (checkTCP ⟨dialErr, dElapsed, p₁, e₁⟩ t).Status
        = (checkTCP ⟨dialErr, dElapsed, p₂, e₂⟩ t).Status
    ∧ (checkTCP ⟨dialErr, dElapsed, p₁, e₁⟩ t).Detail
        = (checkTCP ⟨dialErr, dElapsed, p₂, e₂⟩ t).Detail
    ∧ (checkTCP ⟨dialErr, dElapsed, p₁, e₁⟩ t).Latency = dElapsed
    ∧ (checkTCP ⟨dialErr, dElapsed, p₂, e₂⟩ t).Latency = dElapsed := by
  cases dialErr with
  | some e => exact ⟨rfl, rfl, rfl, rfl, rfl⟩
  | none =>
      by_cases h : t.Port = 443 ∨ t.Port = 8443
      · rw [checkTCP, checkTCP]
        simp [h]
      · rw [checkTCP, checkTCP]
        simp [h]

/-- C6 counterexample: `timeout_ms = 2·10^13` is positive, yet
`time.Duration(timeout_ms) * time.Millisecond` overflows `int64`, so the
effective timeout is the wrapped product (about 49.2 years' worth of
nanoseconds), not `2·10^13` milliseconds. -/
theorem effectiveTimeout_overflow_cex :
    (0 : Int) < 20000000000000
    ∧ effectiveTimeout 20000000000000 ≠ 20000000000000 * millisecond
    ∧ effectiveTimeout 20000000000000 = 1553255926290448384 := by
  refine ⟨by decide, by decide, by decide⟩

/-- C6 (amended): whenever converting `timeout_ms` to nanoseconds does not
overflow `int64`, the effective probe timeout is `timeout_ms` milliseconds
for positive `timeout_ms` and 5 seconds otherwise; overflowing values are
instead classified by the sign of the wrapped product. -/
theorem effectiveTimeout_correct (t : Int)
    (hlo : -(2 ^ 63) ≤ t * millisecond) (hhi : t * millisecond < 2 ^ 63) :
    effectiveTimeout t = if 0 < t then t * millisecond else 5 * second := by
  have hid : int64Mul t millisecond = t * millisecond := by
    rw [int64Mul, toInt64]
    rw [Int.emod_eq_of_lt (by omega) (by omega)]
    omega
  rw [effectiveTimeout]
  simp only [hid]
  by_cases hpos : 0 < t
  · have hmul : 0 < t * millisecond := by
      have : (0 : Int) < millisecond := by norm_num [millisecond]
      positivity
    rw [if_neg (by omega), if_pos hpos]
  · have ht : t ≤ 0 := by omega
    have hmul : t * millisecond ≤ 0 := by
      have h := mul_le_mul_of_nonneg_right ht
        (by norm_num [millisecond] : (0 : Int) ≤ millisecond)
      simpa using h
    rw [if_pos hmul, if_neg hpos]

/-- Witness for C6's amended theorem at `timeout_ms = 7`. -/
theorem effectiveTimeout_correct_witness :
    effectiveTimeout 7 = if (0 : Int) < 7 then 7 * millisecond else 5 * second :=
  effectiveTimeout_correct 7 (by decide) (by decide)

/-- C9: besides the per-target timeout, every HTTP request is bounded by the
client's fixed 10-second timeout: the request bound never exceeds 10 s and
equals 10 s whenever the per-target effective timeout exceeds 10 s. -/
theorem httpRequestBound_capped (t : Int) :
    checkHTTPClient.timeout = 10 * second
    ∧ httpRequestBound t ≤ 10 * second
    ∧ (10 * second < effectiveTimeout t → httpRequestBound t = 10 * second) := by
  refine ⟨rfl, ?_, fun h => ?_⟩
  · rw [httpRequestBound]
    exact min_le_right _ _
  · rw [httpRequestBound]
    simp only [checkHTTPClient]
    omega

/-- Witness for C9 at `timeout_ms = 20000` (a 20 s per-target timeout): the
request bound is capped at exactly 10 s. -/
theorem httpRequestBound_capped_witness : httpRequestBound 20000 = 10 * second :=
  (httpRequestBound_capped 20000).2.2 (by decide)

/-- C10: kind dispatch is on the trimmed, lowercased `type`: any value whose
normalization is `"http"`, `"tcp"` or `"dns"` selects the corresponding
probe branch rather than the unknown-kind ERROR branch. -/
theorem Check_dispatch_normalized (env : Env) (t : Target) :
    (normalizeType t.type = "http" → Check env t = checkHTTP env.http t)
    ∧ (normalizeType t.type = "tcp" → Check env t = checkTCP env.tcp t)
    ∧ (normalizeType t.type = "dns" → Check env t = checkDNS env.dns t) := by
  refine ⟨fun h => ?_, fun h => ?_, fun h => ?_⟩ <;> rw [Check] <;> simp [h]

/-- Witness for C10 at `type = " TCP "` (upper case with surrounding
whitespace): the TCP branch is selected. -/
theorem Check_dispatch_normalized_witness :
    Check sampleEnv { sampleTarget with type := " TCP " }
      = checkTCP sampleEnv.tcp { sampleTarget with type := " TCP " } :=
  (Check_dispatch_normalized sampleEnv { sampleTarget with type := " TCP " }).2.1
    (by decide)

end Checker
